import Mathlib

/-!
Shallow embedding of the `spcdb` named connection pool (`db.go`):
the pool registry (`pools`), the reverse index (`poolPtr`), and the
operations `NewPoolConnection`, `GetFromPool`, `ReturnToPool`,
`ConnectionName` and `pingPool`, together with theorems checking the
specification's claims about them.

Connection handles (`*DB` values in Go, compared by pointer identity)
are modelled as allocation numbers handed out by a counter in the
global state; the opaque driver call `sql.Open` is modelled by an
oracle function from `(driverName, dataSourceName)` to either a
failure message or success (in which case the fresh handle is the
counter's current value).  Go maps are modelled as association lists
where insertion conses in front, so a lookup sees the latest binding.
-/

namespace Spcdb

/-- A database connection handle (a `*DB` in the source, keyed by
pointer identity); modelled as an allocation number. -/
abbrev Conn := Nat

/-- Association-list lookup, the model of a Go map read: the first
binding of the key wins (insertions cons new bindings in front). -/
def lookupL {α β : Type} [DecidableEq α] : List (α × β) → α → Option β
  | [], _ => none
  | (a, b) :: t, k => if a = k then some b else lookupL t k

/-- `ptrType` from the source: a reverse-index entry giving a handle's
slot index and its pool's name. -/
structure PtrType where
  index : Nat
  nameConn : String
deriving DecidableEq, Repr

/-- `poolType` from the source: the slot array (`conns`, a slot being
`none` when never opened), the parallel busy flags, and the immutable
configuration captured at registration. -/
structure PoolType where
  conns : List (Option Conn)
  busy : List Bool
  driver : String
  dsn : String
  ping : Bool
deriving DecidableEq, Repr

/-- The data read from a `DBConfiguer` at registration:
`DriverName()`, `IsPing()` and `String()` (the DSN). -/
structure DBConfig where
  driverName : String
  isPing : Bool
  dsn : String
deriving DecidableEq, Repr

/-- `MaxConnsInPool` from the source: default pool capacity. -/
def MaxConnsInPool : Nat := 20

/-- `TimeoutPing` from the source: the sweep interval, in minutes
(the sweeper sleeps `TimeoutPing * time.Minute`). -/
def TimeoutPing : Nat := 2

/-- `DefaultDriverName` from the source. -/
def DefaultDriverName : String := "postgres"

/-- The process-wide mutable state: the pool registry `pools`, the
reverse index `poolPtr`, and the allocation counter for fresh
connection handles. -/
structure GState where
  pools : List (String × PoolType)
  poolPtr : List (Conn × PtrType)
  nextConn : Conn
deriving DecidableEq, Repr

/-- The driver oracle behind `sql.Open`: for given driver name and
DSN, `some msg` is a failure with that message, `none` is success. -/
abbrev Driver := String → String → Option String

/-- `Open` from the source: calls the driver; on success a fresh
handle (the counter value) is produced and the counter advances; on
failure the driver's error is returned and nothing changes. -/
def Open (drv : Driver) (s : GState) (driverName dataSourceName : String) :
    Except String Conn × GState :=
  match drv driverName dataSourceName with
  | some msg => (Except.error msg, s)
  | none => (Except.ok s.nextConn, { s with nextConn := s.nextConn + 1 })

/-- The error values `GetFromPool` can produce: unknown pool name,
pool exhausted (no idle slot), or a driver-open failure carried
verbatim. -/
inductive DBErr where
  | unknownPool (name : String)
  | noIdle (name : String)
  | openFailed (msg : String)
deriving DecidableEq, Repr

/-- The index of the first `false` entry of a busy array: the slot
Go's `for index, busy := range pool.busy` loop stops at. -/
def firstFree : List Bool → Option Nat
  | [] => none
  | b :: t => if b then (firstFree t).map (· + 1) else some 0

/-- `NewPoolConnection` from the source: registers (or replaces) the
pool under `connectionName` with `maxConns` empty slots, substituting
`DefaultDriverName` when the configuration's driver name is empty.
`maxConns` is the value of the module variable `MaxConnsInPool` at
call time. -/
def NewPoolConnection (maxConns : Nat) (s : GState) (connectionName : String)
    (cfg : DBConfig) : GState :=
  let drvName := if cfg.driverName = "" then DefaultDriverName else cfg.driverName
  { s with pools := (connectionName,
      { conns := List.replicate maxConns none,
        busy := List.replicate maxConns false,
        driver := drvName,
        dsn := cfg.dsn,
        ping := cfg.isPing }) :: s.pools }

/-- `GetFromPool` from the source: look the pool up by name, scan the
busy flags in index order for the first idle slot; reuse its
connection if the slot was ever opened, otherwise attempt to open one
there; with no idle slot, fail.  (`(… .get? index).join` reads slot
`index`, which is in range whenever `conns` and `busy` have equal
length, as they do in every reachable state.) -/
def GetFromPool (drv : Driver) (s : GState) (connectionName : String) :
    Except DBErr Conn × GState :=
  match lookupL s.pools connectionName with
  | none => (Except.error (DBErr.unknownPool connectionName), s)
  | some pool =>
    match firstFree pool.busy with
    | none => (Except.error (DBErr.noIdle connectionName), s)
    | some index =>
      match (pool.conns.get? index).join with
      | some db =>
        (Except.ok db,
          { s with pools := (connectionName,
              { pool with busy := pool.busy.set index true }) :: s.pools })
      | none =>
        match Open drv s pool.driver pool.dsn with
        | (Except.error msg, _) => (Except.error (DBErr.openFailed msg), s)
        | (Except.ok db, s1) =>
          (Except.ok db,
            { s1 with
              pools := (connectionName,
                { pool with
                  conns := pool.conns.set index (some db),
                  busy := pool.busy.set index true }) :: s1.pools,
              poolPtr := (db, { index := index, nameConn := connectionName })
                :: s1.poolPtr })

/-- `ReturnToPool` from the source: look the handle up in the reverse
index; unknown handles yield `false` with no state change; otherwise
the slot it names is marked idle. -/
def ReturnToPool (s : GState) (db : Conn) : Bool × GState :=
  match lookupL s.poolPtr db with
  | none => (false, s)
  | some ptr =>
    match lookupL s.pools ptr.nameConn with
    | none => (false, s)
    | some pool =>
      (true, { s with pools := (ptr.nameConn,
          { pool with busy := pool.busy.set ptr.index false }) :: s.pools })

/-- `ConnectionName` from the source: the registered pool name of a
handle found in the reverse index, the empty string otherwise. -/
def ConnectionName (s : GState) (db : Conn) : String :=
  match lookupL s.poolPtr db with
  | some ptr => ptr.nameConn
  | none => ""

/-- Go's `copy(dst, src)` on boolean slices: overwrite a prefix of
`dst` with `src`, up to the shorter length. -/
def copyTo : List Bool → List Bool → List Bool
  | [], _ => []
  | d :: dt, [] => d :: dt
  | _ :: dt, sr :: st => sr :: copyTo dt st

/-- The sweeper's inner loop over the snapshot: collect, in index
order, the connections of the slots the snapshot marked idle and that
hold an opened connection.  `i` is the index of the snapshot's head
within the original array. -/
def pingScan (conns : List (Option Conn)) : List Bool → Nat → List Conn
  | [], _ => []
  | true :: t, i => pingScan conns t (i + 1)
  | false :: t, i =>
    match (conns.get? i).join with
    | some db => db :: pingScan conns t (i + 1)
    | none => pingScan conns t (i + 1)

/-- `pingPool` from the source: snapshot the busy flags into a fresh
array of length `maxConns` (the module variable `MaxConnsInPool` at
call time), then ping every idle, opened slot of the snapshot.  The
result is the list of pinged connections; ping results are discarded
and the pool is not modified. -/
def pingPool (maxConns : Nat) (pool : PoolType) : List Conn :=
  let freePools := copyTo (List.replicate maxConns false) pool.busy
  pingScan pool.conns freePools 0

/-- One pool's share of a sweep: the sweeper pings the pools whose
`ping` flag is set and skips the rest.  State is not modified by a
sweep. -/
def sweepPool (maxConns : Nat) (s : GState) (connectionName : String) : List Conn :=
  match lookupL s.pools connectionName with
  | some pool => if pool.ping then pingPool maxConns pool else []
  | none => []

/-- Two states that a caller cannot tell apart: every map lookup and
the allocation counter agree.  (The model conses updated pool entries
in front of the registry, so an in-place no-op write yields a state
equivalent, not syntactically equal, to the original.) -/
def StateEquiv (s t : GState) : Prop :=
  (∀ n, lookupL s.pools n = lookupL t.pools n) ∧
  (∀ c, lookupL s.poolPtr c = lookupL t.poolPtr c) ∧
  s.nextConn = t.nextConn

/-- The reachable-state invariant tying the registry to the reverse
index: every reverse-index entry points at an existing pool whose slot
holds exactly that handle, slot and busy arrays have equal lengths,
every known handle is below the allocation counter, and every opened
slot is registered in the reverse index. -/
structure WFp (s : GState) : Prop where
  ptrSlot : ∀ c ptr, lookupL s.poolPtr c = some ptr →
    ∃ pool, lookupL s.pools ptr.nameConn = some pool ∧
      pool.conns.get? ptr.index = some (some c)
  lenEq : ∀ name pool, lookupL s.pools name = some pool →
    pool.conns.length = pool.busy.length
  ptrFresh : ∀ c ptr, lookupL s.poolPtr c = some ptr → c < s.nextConn
  slotPtr : ∀ name pool i c, lookupL s.pools name = some pool →
    pool.conns.get? i = some (some c) →
    lookupL s.poolPtr c = some { index := i, nameConn := name }
  slotFresh : ∀ name pool i c, lookupL s.pools name = some pool →
    pool.conns.get? i = some (some c) → c < s.nextConn

/-- An executable sufficient check for `WFp`, for evaluating the
invariant on concrete states. -/
def wfCheck (s : GState) : Bool :=
  (s.poolPtr.all fun cp =>
    match lookupL s.pools cp.2.nameConn with
    | some pool =>
        decide (pool.conns.get? cp.2.index = some (some cp.1)) &&
        decide (cp.1 < s.nextConn)
    | none => false) &&
  (s.pools.all fun np =>
    decide (np.2.conns.length = np.2.busy.length) &&
    (List.range np.2.conns.length).all fun i =>
      match np.2.conns.get? i with
      | some (some c) =>
          decide (lookupL s.poolPtr c = some { index := i, nameConn := np.1 }) &&
          decide (c < s.nextConn)
      | _ => true)

/-- One atomic pool operation, as serialized by the locks: an
`Acquire` on any name with any driver behaviour, or a `Release` of any
handle. -/
inductive Step : GState → GState → Prop where
  | acquire (drv : Driver) (connectionName : String) (s : GState) :
      Step s (GetFromPool drv s connectionName).2
  | release (db : Conn) (s : GState) :
      Step s (ReturnToPool s db).2

/-- Across a transition, every registered pool is still registered and
its slot and busy arrays keep their lengths. -/
def PoolLenPres (s t : GState) : Prop :=
  ∀ n p, lookupL s.pools n = some p →
    ∃ p', lookupL t.pools n = some p' ∧
      p'.busy.length = p.busy.length ∧ p'.conns.length = p.conns.length

/-- Across a transition, an opened slot keeps its connection: a slot
is written at most once and never emptied. -/
def ConnsPres (s t : GState) : Prop :=
  ∀ n p p' j c, lookupL s.pools n = some p → lookupL t.pools n = some p' →
    p.conns.get? j = some (some c) → p'.conns.get? j = some (some c)

/-- Across a transition, a reverse-index entry is never removed or
changed. -/
def PtrPres (s t : GState) : Prop :=
  ∀ c ptr, lookupL s.poolPtr c = some ptr → lookupL t.poolPtr c = some ptr

/-- A driver oracle that always succeeds. -/
def drvOkW : Driver := fun _ _ => none

/-- A driver oracle that always fails, with a fixed message. -/
def drvFailW : Driver := fun _ _ => some "boom"

/-- Sample pool: two slots, slot 0 busy, slot 1 idle, both opened. -/
def poolW1 : PoolType :=
  { conns := [some 3, some 7], busy := [true, false],
    driver := "postgres", dsn := "d", ping := false }

/-- Sample state holding `poolW1` under the name `p`, with a matching
reverse index. -/
def sW1 : GState :=
  { pools := [("p", poolW1)],
    poolPtr := [(3, { index := 0, nameConn := "p" }),
                (7, { index := 1, nameConn := "p" })],
    nextConn := 8 }

/-- Sample pool: two slots, both idle and never opened. -/
def poolW3 : PoolType :=
  { conns := [none, none], busy := [false, false],
    driver := "postgres", dsn := "d", ping := false }

/-- Sample state holding `poolW3` under the name `q`. -/
def sW3 : GState :=
  { pools := [("q", poolW3)], poolPtr := [], nextConn := 0 }

/-- Sample pool of capacity one, idle and never opened. -/
def poolW5 : PoolType :=
  { conns := [none], busy := [false],
    driver := "postgres", dsn := "d", ping := false }

/-- Sample state holding `poolW5` under the name `r`. -/
def sW5 : GState :=
  { pools := [("r", poolW5)], poolPtr := [], nextConn := 0 }

/-- Sample ping-enabled pool: slot 0 busy, slot 1 idle, both opened. -/
def poolW6 : PoolType :=
  { conns := [some 3, some 7], busy := [true, false],
    driver := "postgres", dsn := "d", ping := true }

/-- Sample state holding `poolW6` under the name `p`. -/
def sW6 : GState :=
  { pools := [("p", poolW6)],
    poolPtr := [(3, { index := 0, nameConn := "p" }),
                (7, { index := 1, nameConn := "p" })],
    nextConn := 8 }

/-- The state at process start: no pools, no handles. -/
def sEmptyW : GState := { pools := [], poolPtr := [], nextConn := 0 }

end Spcdb

namespace Spcdb

theorem lookupL_cons {α β : Type} [DecidableEq α] (a : α) (b : β) (t : List (α × β))
    (k : α) : lookupL ((a, b) :: t) k = if a = k then some b else lookupL t k := rfl

theorem lookupL_mem {α β : Type} [DecidableEq α] {l : List (α × β)} {k : α} {v : β}
    (h : lookupL l k = some v) : (k, v) ∈ l := by
  induction l with
  | nil => simp [lookupL] at h
  | cons p t ih =>
    obtain ⟨a, b⟩ := p
    rw [lookupL_cons] at h
    by_cases hak : a = k
    · subst hak
      simp at h
      subst h
      exact List.mem_cons_self _ _
    · simp [hak] at h
      exact List.mem_cons_of_mem _ (ih h)

theorem get?_some_lt {α : Type} {l : List α} {i : Nat} {x : α}
    (h : l.get? i = some x) : i < l.length := by
  by_contra hc
  rw [List.get?_eq_none.mpr (Nat.le_of_not_lt hc)] at h
  exact Option.noConfusion h

theorem get?_set_self {α : Type} {l : List α} {i : Nat} (a : α)
    (h : i < l.length) : (l.set i a).get? i = some a := by
  induction l generalizing i with
  | nil => simp at h
  | cons x t ih =>
    cases i with
    | zero => rfl
    | succ j =>
      simp only [List.set, List.get?]
      exact ih (Nat.lt_of_succ_lt_succ h)

theorem get?_set_ne {α : Type} (l : List α) (i : Nat) (a : α) {j : Nat}
    (h : i ≠ j) : (l.set i a).get? j = l.get? j := by
  induction l generalizing i j with
  | nil => simp [List.set]
  | cons x t ih =>
    cases i with
    | zero =>
      cases j with
      | zero => exact absurd rfl h
      | succ k => rfl
    | succ m =>
      cases j with
      | zero => rfl
      | succ k =>
        simp only [List.set, List.get?]
        exact ih m (fun he => h (by rw [he]))

theorem set_of_get? {α : Type} {l : List α} {i : Nat} {a : α}
    (h : l.get? i = some a) : l.set i a = l := by
  induction l generalizing i with
  | nil => rfl
  | cons x t ih =>
    cases i with
    | zero =>
      simp only [List.get?] at h
      cases h
      rfl
    | succ j =>
      simp only [List.get?] at h
      simp only [List.set]
      rw [ih h]

theorem firstFree_lt {l : List Bool} {i : Nat} (h : firstFree l = some i) :
    i < l.length := by
  induction l generalizing i with
  | nil => simp [firstFree] at h
  | cons b t ih =>
    by_cases hb : b
    · simp only [firstFree, hb, if_true] at h
      cases ht : firstFree t with
      | none => rw [ht] at h; simp at h
      | some j =>
        rw [ht] at h
        simp at h
        subst h
        exact Nat.succ_lt_succ (ih ht)
    · simp only [firstFree, hb, if_false] at h
      cases h
      exact Nat.succ_pos _

theorem firstFree_get {l : List Bool} {i : Nat} (h : firstFree l = some i) :
    l.get? i = some false := by
  induction l generalizing i with
  | nil => simp [firstFree] at h
  | cons b t ih =>
    by_cases hb : b
    · simp only [firstFree, hb, if_true] at h
      cases ht : firstFree t with
      | none => rw [ht] at h; simp at h
      | some j =>
        rw [ht] at h
        simp at h
        subst h
        exact ih ht
    · simp only [firstFree, hb, if_false] at h
      cases h
      simp at hb
      simp [hb]

theorem firstFree_prior {l : List Bool} {i : Nat} (h : firstFree l = some i) :
    ∀ j, j < i → l.get? j = some true := by
  induction l generalizing i with
  | nil => simp [firstFree] at h
  | cons b t ih =>
    by_cases hb : b
    · simp only [firstFree, hb, if_true] at h
      cases ht : firstFree t with
      | none => rw [ht] at h; simp at h
      | some m =>
        rw [ht] at h
        simp at h
        subst h
        intro j hj
        cases j with
        | zero => simp at hb; simp [hb]
        | succ k =>
          simp only [List.get?]
          exact ih ht k (Nat.lt_of_succ_lt_succ hj)
    · simp only [firstFree, hb, if_false] at h
      cases h
      intro j hj
      exact absurd hj (Nat.not_lt_zero _)

theorem firstFree_none_iff {l : List Bool} :
    firstFree l = none ↔ ∀ b ∈ l, b = true := by
  induction l with
  | nil => simp [firstFree]
  | cons b t ih =>
    by_cases hb : b
    · subst hb
      simp only [firstFree, if_true]
      constructor
      · intro h
        intro x hx
        rcases List.mem_cons.mp hx with hx | hx
        · exact hx
        · cases ht : firstFree t with
          | none => exact ih.mp ht x hx
          | some j => rw [ht] at h; simp at h
      · intro h
        rw [ih.mpr (fun x hx => h x (List.mem_cons_of_mem _ hx))]
        rfl
    · simp only [firstFree, hb, if_false]
      simp at hb
      subst hb
      constructor
      · intro h; exact absurd h (by simp)
      · intro h
        have := h false (List.mem_cons_self _ _)
        simp at this
  
theorem firstFree_of_spec {l : List Bool} {i : Nat}
    (hprior : ∀ j, j < i → l.get? j = some true) (hi : l.get? i = some false) :
    firstFree l = some i := by
  induction l generalizing i with
  | nil => simp [List.get?] at hi
  | cons b t ih =>
    cases i with
    | zero =>
      simp only [List.get?] at hi
      cases hi
      rfl
    | succ m =>
      have hb : b = true := by
        have := hprior 0 (Nat.succ_pos _)
        simpa using this
      subst hb
      simp only [firstFree, if_true]
      have : firstFree t = some m := by
        apply ih
        · intro j hj
          have := hprior (j + 1) (Nat.succ_lt_succ hj)
          simpa using this
        · simpa using hi
      rw [this]
      rfl

theorem copyTo_replicate {src : List Bool} {n : Nat} (h : src.length = n) :
    copyTo (List.replicate n false) src = src := by
  induction src generalizing n with
  | nil =>
    subst h
    rfl
  | cons b t ih =>
    subst h
    simp only [List.length_cons, List.replicate, copyTo]
    rw [ih rfl]

theorem mem_pingScan {conns : List (Option Conn)} {flags : List Bool} {i : Nat}
    {c : Conn} :
    c ∈ pingScan conns flags i ↔
      ∃ j, flags.get? j = some false ∧ (conns.get? (i + j)).join = some c := by
  induction flags generalizing i with
  | nil => simp [pingScan, List.get?]
  | cons b t ih =>
    have hshift : ∀ j : Nat, i + 1 + j = i + (j + 1) := by
      intro j
      omega
    cases b with
    | true =>
      simp only [pingScan]
      rw [ih]
      constructor
      · rintro ⟨j, hj, hc⟩
        exact ⟨j + 1, by simpa using hj, by rw [← hshift j]; exact hc⟩
      · rintro ⟨j, hj, hc⟩
        cases j with
        | zero => simp [List.get?] at hj
        | succ k =>
          exact ⟨k, by simpa using hj, by rw [hshift k]; exact hc⟩
    | false =>
      simp only [pingScan]
      constructor
      · intro hmem
        cases hcj : (conns.get? i).join with
        | some db =>
          rw [hcj] at hmem
          rcases List.mem_cons.mp hmem with hh | hh
          · subst hh
            exact ⟨0, rfl, by simpa using hcj⟩
          · rcases ih.mp hh with ⟨j, hj, hc⟩
            exact ⟨j + 1, by simpa using hj, by rw [← hshift j]; exact hc⟩
        | none =>
          rw [hcj] at hmem
          rcases ih.mp hmem with ⟨j, hj, hc⟩
          exact ⟨j + 1, by simpa using hj, by rw [← hshift j]; exact hc⟩
      · rintro ⟨j, hj, hc⟩
        cases j with
        | zero =>
          simp only [Nat.add_zero] at hc
          rw [hc]
          exact List.mem_cons_self _ _
        | succ k =>
          simp only [List.get?] at hj
          have hmem : c ∈ pingScan conns t (i + 1) :=
            ih.mpr ⟨k, hj, by rw [hshift k]; exact hc⟩
          cases hcj : (conns.get? i).join with
          | some db => exact List.mem_cons_of_mem _ hmem
          | none => exact hmem

end Spcdb

namespace Spcdb

theorem wfCheck_sound {s : GState} (h : wfCheck s = true) : WFp s := by
  unfold wfCheck at h
  rw [Bool.and_eq_true] at h
  obtain ⟨hptr, hpools⟩ := h
  rw [List.all_eq_true] at hptr
  rw [List.all_eq_true] at hpools
  have hptrFact : ∀ c ptr, lookupL s.poolPtr c = some ptr →
      ∃ pool, lookupL s.pools ptr.nameConn = some pool ∧
        pool.conns.get? ptr.index = some (some c) ∧ c < s.nextConn := by
    intro c ptr hlk
    have hmem := lookupL_mem hlk
    have := hptr (c, ptr) hmem
    cases hp : lookupL s.pools ptr.nameConn with
    | none => rw [hp] at this; simp at this
    | some pool =>
      rw [hp] at this
      simp only [Bool.and_eq_true, decide_eq_true_eq] at this
      exact ⟨pool, rfl, this.1, this.2⟩
  have hpoolFact : ∀ name pool, lookupL s.pools name = some pool →
      pool.conns.length = pool.busy.length ∧
      ∀ i c, pool.conns.get? i = some (some c) →
        lookupL s.poolPtr c = some { index := i, nameConn := name } ∧
          c < s.nextConn := by
    intro name pool hlk
    have hmem := lookupL_mem hlk
    have := hpools (name, pool) hmem
    rw [Bool.and_eq_true] at this
    obtain ⟨hlen, hall⟩ := this
    rw [List.all_eq_true] at hall
    refine ⟨by simpa using hlen, ?_⟩
    intro i c hg
    have hi : i < pool.conns.length := get?_some_lt hg
    have := hall i (List.mem_range.mpr hi)
    rw [hg] at this
    simp only [Bool.and_eq_true, decide_eq_true_eq] at this
    exact this
  refine ⟨?_, ?_, ?_, ?_, ?_⟩
  · intro c ptr hlk
    obtain ⟨pool, hp, hg, _⟩ := hptrFact c ptr hlk
    exact ⟨pool, hp, hg⟩
  · intro name pool hlk
    exact (hpoolFact name pool hlk).1
  · intro c ptr hlk
    obtain ⟨_, _, _, hc⟩ := hptrFact c ptr hlk
    exact hc
  · intro name pool i c hlk hg
    exact ((hpoolFact name pool hlk).2 i c hg).1
  · intro name pool i c hlk hg
    exact ((hpoolFact name pool hlk).2 i c hg).2

theorem getFromPool_unknown {drv : Driver} {s : GState} {name : String}
    (h : lookupL s.pools name = none) :
    GetFromPool drv s name = (Except.error (DBErr.unknownPool name), s) := by
  unfold GetFromPool
  rw [h]

theorem getFromPool_exhausted {drv : Driver} {s : GState} {name : String}
    {pool : PoolType} (h : lookupL s.pools name = some pool)
    (hf : firstFree pool.busy = none) :
    GetFromPool drv s name = (Except.error (DBErr.noIdle name), s) := by
  simp only [GetFromPool, h, hf]

theorem getFromPool_reuse {drv : Driver} {s : GState} {name : String}
    {pool : PoolType} {i : Nat} {c : Conn}
    (h : lookupL s.pools name = some pool)
    (hf : firstFree pool.busy = some i)
    (hc : (pool.conns.get? i).join = some c) :
    GetFromPool drv s name = (Except.ok c,
      { s with pools := (name, { pool with busy := pool.busy.set i true })
          :: s.pools }) := by
  simp only [GetFromPool, h, hf, hc]

theorem getFromPool_openFail {drv : Driver} {s : GState} {name : String}
    {pool : PoolType} {i : Nat} {msg : String}
    (h : lookupL s.pools name = some pool)
    (hf : firstFree pool.busy = some i)
    (hc : (pool.conns.get? i).join = none)
    (hd : drv pool.driver pool.dsn = some msg) :
    GetFromPool drv s name = (Except.error (DBErr.openFailed msg), s) := by
  simp only [GetFromPool, Open, h, hf, hc, hd]

theorem getFromPool_openOk {drv : Driver} {s : GState} {name : String}
    {pool : PoolType} {i : Nat}
    (h : lookupL s.pools name = some pool)
    (hf : firstFree pool.busy = some i)
    (hc : (pool.conns.get? i).join = none)
    (hd : drv pool.driver pool.dsn = none) :
    GetFromPool drv s name = (Except.ok s.nextConn,
      { pools := (name, { pool with
            conns := pool.conns.set i (some s.nextConn),
            busy := pool.busy.set i true }) :: s.pools,
        poolPtr := (s.nextConn, { index := i, nameConn := name }) :: s.poolPtr,
        nextConn := s.nextConn + 1 }) := by
  simp only [GetFromPool, Open, h, hf, hc, hd]

theorem returnToPool_unknown {s : GState} {db : Conn}
    (h : lookupL s.poolPtr db = none) : ReturnToPool s db = (false, s) := by
  unfold ReturnToPool
  rw [h]

theorem returnToPool_found {s : GState} {db : Conn} {ptr : PtrType}
    {pool : PoolType} (h : lookupL s.poolPtr db = some ptr)
    (hp : lookupL s.pools ptr.nameConn = some pool) :
    ReturnToPool s db = (true,
      { s with pools := (ptr.nameConn,
          { pool with busy := pool.busy.set ptr.index false }) :: s.pools }) := by
  simp only [ReturnToPool, h, hp]

theorem join_none_ne_some {o : Option (Option Conn)} {c : Conn}
    (h : o.join = none) : o ≠ some (some c) := by
  intro he
  subst he
  simp [Option.join] at h

end Spcdb

namespace Spcdb

theorem getFromPool_cases (drv : Driver) (s : GState) (name : String) :
    (GetFromPool drv s name).2 = s ∨
    (∃ pool i, lookupL s.pools name = some pool ∧ firstFree pool.busy = some i ∧
      i < pool.busy.length ∧ (∃ c, (pool.conns.get? i).join = some c) ∧
      (GetFromPool drv s name).2 =
        { s with pools := (name, { pool with busy := pool.busy.set i true })
            :: s.pools }) ∨
    (∃ pool i, lookupL s.pools name = some pool ∧ firstFree pool.busy = some i ∧
      i < pool.busy.length ∧ (pool.conns.get? i).join = none ∧
      (GetFromPool drv s name).2 =
        { pools := (name, { pool with
              conns := pool.conns.set i (some s.nextConn),
              busy := pool.busy.set i true }) :: s.pools,
          poolPtr := (s.nextConn, { index := i, nameConn := name }) :: s.poolPtr,
          nextConn := s.nextConn + 1 }) := by
  cases hlk : lookupL s.pools name with
  | none =>
    left
    rw [getFromPool_unknown hlk]
  | some pool =>
    cases hf : firstFree pool.busy with
    | none =>
      left
      rw [getFromPool_exhausted hlk hf]
    | some i =>
      have hi : i < pool.busy.length := firstFree_lt hf
      cases hc : (pool.conns.get? i).join with
      | some c =>
        right; left
        refine ⟨pool, i, rfl, hf, hi, ⟨c, hc⟩, ?_⟩
        rw [getFromPool_reuse hlk hf hc]
      | none =>
        cases hd : drv pool.driver pool.dsn with
        | some msg =>
          left
          rw [getFromPool_openFail hlk hf hc hd]
        | none =>
          right; right
          refine ⟨pool, i, rfl, hf, hi, hc, ?_⟩
          rw [getFromPool_openOk hlk hf hc hd]

theorem returnToPool_cases (s : GState) (db : Conn) :
    (ReturnToPool s db).2 = s ∨
    (∃ ptr pool, lookupL s.poolPtr db = some ptr ∧
      lookupL s.pools ptr.nameConn = some pool ∧
      (ReturnToPool s db).2 = { s with pools := (ptr.nameConn,
        { pool with busy := pool.busy.set ptr.index false }) :: s.pools }) := by
  cases hlk : lookupL s.poolPtr db with
  | none =>
    left
    rw [returnToPool_unknown hlk]
  | some ptr =>
    cases hp : lookupL s.pools ptr.nameConn with
    | none =>
      left
      unfold ReturnToPool
      simp only [hlk, hp]
    | some pool =>
      right
      refine ⟨ptr, pool, rfl, hp, ?_⟩
      rw [returnToPool_found hlk hp]

theorem getFromPool_lenPres (drv : Driver) (s : GState) (name : String) :
    PoolLenPres s (GetFromPool drv s name).2 := by
  rcases getFromPool_cases drv s name with hst |
      ⟨pool, i, hlk, _, _, _, hst⟩ | ⟨pool, i, hlk, _, _, _, hst⟩ <;>
    intro n p hp <;> rw [hst]
  · exact ⟨p, hp, rfl, rfl⟩
  · by_cases hn : name = n
    · subst hn
      rw [hlk] at hp
      cases hp
      refine ⟨{ pool with busy := pool.busy.set i true }, ?_, ?_, rfl⟩
      · rw [lookupL_cons, if_pos rfl]
      · exact List.length_set _ _ _
    · refine ⟨p, ?_, rfl, rfl⟩
      rw [lookupL_cons, if_neg hn]
      exact hp
  · by_cases hn : name = n
    · subst hn
      rw [hlk] at hp
      cases hp
      refine ⟨{ pool with
        conns := pool.conns.set i (some s.nextConn),
        busy := pool.busy.set i true }, ?_, ?_, ?_⟩
      · rw [lookupL_cons, if_pos rfl]
      · exact List.length_set _ _ _
      · exact List.length_set _ _ _
    · refine ⟨p, ?_, rfl, rfl⟩
      rw [lookupL_cons, if_neg hn]
      exact hp

theorem getFromPool_connsPres (drv : Driver) (s : GState) (name : String) :
    ConnsPres s (GetFromPool drv s name).2 := by
  rcases getFromPool_cases drv s name with hst |
      ⟨pool, i, hlk, _, _, _, hst⟩ | ⟨pool, i, hlk, _, _, hjn, hst⟩ <;>
    intro n p p' j c hp hp' hg <;> rw [hst] at hp'
  · rw [hp] at hp'
    cases hp'
    exact hg
  · rw [lookupL_cons] at hp'
    by_cases hn : name = n
    · subst hn
      rw [if_pos rfl] at hp'
      cases hp'
      rw [hlk] at hp
      cases hp
      exact hg
    · rw [if_neg hn, hp] at hp'
      cases hp'
      exact hg
  · rw [lookupL_cons] at hp'
    by_cases hn : name = n
    · subst hn
      rw [if_pos rfl] at hp'
      cases hp'
      rw [hlk] at hp
      cases hp
      have hji : i ≠ j := by
        intro he
        subst he
        exact join_none_ne_some hjn hg
      exact (get?_set_ne _ _ _ hji).trans hg
    · rw [if_neg hn, hp] at hp'
      cases hp'
      exact hg

theorem returnToPool_lenPres (s : GState) (db : Conn) :
    PoolLenPres s (ReturnToPool s db).2 := by
  rcases returnToPool_cases s db with hst | ⟨ptr, pool, _, hp0, hst⟩ <;>
    intro n p hp <;> rw [hst]
  · exact ⟨p, hp, rfl, rfl⟩
  · by_cases hn : ptr.nameConn = n
    · subst hn
      rw [hp0] at hp
      cases hp
      refine ⟨{ pool with busy := pool.busy.set ptr.index false }, ?_, ?_, rfl⟩
      · rw [lookupL_cons, if_pos rfl]
      · exact List.length_set _ _ _
    · refine ⟨p, ?_, rfl, rfl⟩
      rw [lookupL_cons, if_neg hn]
      exact hp

theorem returnToPool_connsPres (s : GState) (db : Conn) :
    ConnsPres s (ReturnToPool s db).2 := by
  rcases returnToPool_cases s db with hst | ⟨ptr, pool, _, hp0, hst⟩ <;>
    intro n p p' j c hp hp' hg <;> rw [hst] at hp'
  · rw [hp] at hp'
    cases hp'
    exact hg
  · rw [lookupL_cons] at hp'
    by_cases hn : ptr.nameConn = n
    · subst hn
      rw [if_pos rfl] at hp'
      cases hp'
      rw [hp0] at hp
      cases hp
      exact hg
    · rw [if_neg hn, hp] at hp'
      cases hp'
      exact hg

theorem returnToPool_ptrPres (s : GState) (db : Conn) :
    PtrPres s (ReturnToPool s db).2 := by
  rcases returnToPool_cases s db with hst | ⟨ptr, pool, _, _, hst⟩ <;>
    intro c p hp <;> rw [hst] <;> exact hp

theorem getFromPool_ptrPres {drv : Driver} {s : GState} {name : String}
    (hwf : WFp s) : PtrPres s (GetFromPool drv s name).2 := by
  rcases getFromPool_cases drv s name with hst |
      ⟨pool, i, hlk, _, _, _, hst⟩ | ⟨pool, i, hlk, _, _, hjn, hst⟩ <;>
    intro c p hp <;> rw [hst]
  · exact hp
  · exact hp
  · have hlt : c < s.nextConn := hwf.ptrFresh c p hp
    have hne : ¬(s.nextConn = c) := fun he => Nat.lt_irrefl c (he ▸ hlt)
    rw [lookupL_cons, if_neg hne]
    exact hp

end Spcdb

namespace Spcdb

theorem getFromPool_wf {drv : Driver} {s : GState} {name : String}
    (hwf : WFp s) : WFp (GetFromPool drv s name).2 := by
  obtain ⟨wf1, wf2, wf3, wf4, wf5⟩ := hwf
  rcases getFromPool_cases drv s name with hst |
      ⟨pool, i, hlk, hf, hi, ⟨c0, hc0⟩, hst⟩ | ⟨pool, i, hlk, hf, hi, hjn, hst⟩
  · rw [hst]
    exact ⟨wf1, wf2, wf3, wf4, wf5⟩
  · rw [hst]
    refine ⟨?_, ?_, ?_, ?_, ?_⟩
    · intro c ptr hlkp
      obtain ⟨p0, hp0, hg0⟩ := wf1 c ptr hlkp
      by_cases hn : name = ptr.nameConn
      · refine ⟨{ pool with busy := pool.busy.set i true }, ?_, ?_⟩
        · rw [lookupL_cons, if_pos hn]
        · rw [← hn, hlk] at hp0
          cases hp0
          exact hg0
      · refine ⟨p0, ?_, hg0⟩
        rw [lookupL_cons, if_neg hn]
        exact hp0
    · intro n p hlkp
      rw [lookupL_cons] at hlkp
      by_cases hn : name = n
      · rw [if_pos hn] at hlkp
        cases hlkp
        simpa [List.length_set] using wf2 name pool hlk
      · rw [if_neg hn] at hlkp
        exact wf2 n p hlkp
    · exact wf3
    · intro n p j c hlkp hg
      rw [lookupL_cons] at hlkp
      by_cases hn : name = n
      · rw [if_pos hn] at hlkp
        cases hlkp
        subst hn
        exact wf4 name pool j c hlk hg
      · rw [if_neg hn] at hlkp
        exact wf4 n p j c hlkp hg
    · intro n p j c hlkp hg
      rw [lookupL_cons] at hlkp
      by_cases hn : name = n
      · rw [if_pos hn] at hlkp
        cases hlkp
        exact wf5 name pool j c hlk hg
      · rw [if_neg hn] at hlkp
        exact wf5 n p j c hlkp hg
  · have hiconns : i < pool.conns.length := by
      rw [wf2 name pool hlk]
      exact hi
    rw [hst]
    refine ⟨?_, ?_, ?_, ?_, ?_⟩
    · intro c ptr hlkp
      rw [lookupL_cons] at hlkp
      by_cases hdb : s.nextConn = c
      · rw [if_pos hdb] at hlkp
        cases hlkp
        refine ⟨{ pool with
          conns := pool.conns.set i (some s.nextConn),
          busy := pool.busy.set i true }, ?_, ?_⟩
        · rw [lookupL_cons, if_pos rfl]
        · rw [← hdb]
          exact get?_set_self _ hiconns
      · rw [if_neg hdb] at hlkp
        obtain ⟨p0, hp0, hg0⟩ := wf1 c ptr hlkp
        by_cases hn : name = ptr.nameConn
        · rw [← hn, hlk] at hp0
          cases hp0
          have hii : i ≠ ptr.index := by
            intro he
            exact join_none_ne_some hjn (he ▸ hg0)
          refine ⟨{ pool with
            conns := pool.conns.set i (some s.nextConn),
            busy := pool.busy.set i true }, ?_, ?_⟩
          · rw [lookupL_cons, if_pos hn]
          · exact (get?_set_ne _ _ _ hii).trans hg0
        · refine ⟨p0, ?_, hg0⟩
          rw [lookupL_cons, if_neg hn]
          exact hp0
    · intro n p hlkp
      rw [lookupL_cons] at hlkp
      by_cases hn : name = n
      · rw [if_pos hn] at hlkp
        cases hlkp
        simpa [List.length_set] using wf2 name pool hlk
      · rw [if_neg hn] at hlkp
        exact wf2 n p hlkp
    · intro c ptr hlkp
      rw [lookupL_cons] at hlkp
      by_cases hdb : s.nextConn = c
      · rw [← hdb]
        exact Nat.lt_succ_self _
      · rw [if_neg hdb] at hlkp
        exact Nat.lt_succ_of_lt (wf3 c ptr hlkp)
    · intro n p j c hlkp hg
      rw [lookupL_cons] at hlkp
      by_cases hn : name = n
      · rw [if_pos hn] at hlkp
        cases hlkp
        subst hn
        by_cases hij : i = j
        · subst hij
          have hg' : (pool.conns.set i (some s.nextConn)).get? i =
              some (some s.nextConn) := get?_set_self _ hiconns
          rw [hg'] at hg
          injection hg with hg1
          injection hg1 with hg2
          rw [← hg2, lookupL_cons, if_pos rfl]
        · have hg' : pool.conns.get? j = some (some c) :=
            (get?_set_ne _ _ _ hij).symm.trans hg
          have h4 := wf4 name pool j c hlk hg'
          have hcf : c < s.nextConn := wf5 name pool j c hlk hg'
          have hne : ¬(s.nextConn = c) := fun he => Nat.lt_irrefl c (he ▸ hcf)
          rw [lookupL_cons, if_neg hne]
          exact h4
      · rw [if_neg hn] at hlkp
        have h4 := wf4 n p j c hlkp hg
        have hcf : c < s.nextConn := wf5 n p j c hlkp hg
        have hne : ¬(s.nextConn = c) := fun he => Nat.lt_irrefl c (he ▸ hcf)
        rw [lookupL_cons, if_neg hne]
        exact h4
    · intro n p j c hlkp hg
      rw [lookupL_cons] at hlkp
      by_cases hn : name = n
      · rw [if_pos hn] at hlkp
        cases hlkp
        by_cases hij : i = j
        · subst hij
          have hg' : (pool.conns.set i (some s.nextConn)).get? i =
              some (some s.nextConn) := get?_set_self _ hiconns
          rw [hg'] at hg
          injection hg with hg1
          injection hg1 with hg2
          rw [← hg2]
          exact Nat.lt_succ_self _
        · have hg' : pool.conns.get? j = some (some c) :=
            (get?_set_ne _ _ _ hij).symm.trans hg
          exact Nat.lt_succ_of_lt (wf5 name pool j c hlk hg')
      · rw [if_neg hn] at hlkp
        exact Nat.lt_succ_of_lt (wf5 n p j c hlkp hg)

theorem returnToPool_wf {s : GState} {db : Conn} (hwf : WFp s) :
    WFp (ReturnToPool s db).2 := by
  obtain ⟨wf1, wf2, wf3, wf4, wf5⟩ := hwf
  rcases returnToPool_cases s db with hst | ⟨ptr0, pool0, hptr, hp0, hst⟩
  · rw [hst]
    exact ⟨wf1, wf2, wf3, wf4, wf5⟩
  · rw [hst]
    refine ⟨?_, ?_, ?_, ?_, ?_⟩
    · intro c ptr hlkp
      obtain ⟨p1, hp1, hg1⟩ := wf1 c ptr hlkp
      by_cases hn : ptr0.nameConn = ptr.nameConn
      · refine ⟨{ pool0 with busy := pool0.busy.set ptr0.index false }, ?_, ?_⟩
        · rw [lookupL_cons, if_pos hn]
        · rw [← hn, hp0] at hp1
          cases hp1
          exact hg1
      · refine ⟨p1, ?_, hg1⟩
        rw [lookupL_cons, if_neg hn]
        exact hp1
    · intro n p hlkp
      rw [lookupL_cons] at hlkp
      by_cases hn : ptr0.nameConn = n
      · rw [if_pos hn] at hlkp
        cases hlkp
        simpa [List.length_set] using wf2 ptr0.nameConn pool0 hp0
      · rw [if_neg hn] at hlkp
        exact wf2 n p hlkp
    · exact wf3
    · intro n p j c hlkp hg
      rw [lookupL_cons] at hlkp
      by_cases hn : ptr0.nameConn = n
      · rw [if_pos hn] at hlkp
        cases hlkp
        subst hn
        exact wf4 ptr0.nameConn pool0 j c hp0 hg
      · rw [if_neg hn] at hlkp
        exact wf4 n p j c hlkp hg
    · intro n p j c hlkp hg
      rw [lookupL_cons] at hlkp
      by_cases hn : ptr0.nameConn = n
      · rw [if_pos hn] at hlkp
        cases hlkp
        exact wf5 ptr0.nameConn pool0 j c hp0 hg
      · rw [if_neg hn] at hlkp
        exact wf5 n p j c hlkp hg

theorem step_wf {s t : GState} (h : Step s t) (hwf : WFp s) : WFp t := by
  cases h with
  | acquire drv name s => exact getFromPool_wf hwf
  | release db s => exact returnToPool_wf hwf

theorem step_lenPres {s t : GState} (h : Step s t) : PoolLenPres s t := by
  cases h with
  | acquire drv name s => exact getFromPool_lenPres drv s name
  | release db s => exact returnToPool_lenPres s db

theorem reach_wf_lenPres {s t : GState}
    (h : Relation.ReflTransGen Step s t) (hwf : WFp s) :
    WFp t ∧ PoolLenPres s t := by
  induction h with
  | refl => exact ⟨hwf, fun n p hp => ⟨p, hp, rfl, rfl⟩⟩
  | tail hst hstep ih =>
    obtain ⟨hwfb, hlen⟩ := ih
    refine ⟨step_wf hstep hwfb, ?_⟩
    intro n p hp
    obtain ⟨p1, hp1, hb1, hc1⟩ := hlen n p hp
    obtain ⟨p2, hp2, hb2, hc2⟩ := step_lenPres hstep n p1 hp1
    exact ⟨p2, hp2, hb2.trans hb1, hc2.trans hc1⟩

end Spcdb

namespace Spcdb

/-- C1: on a registered pool, `GetFromPool` scans the busy flags in
index order: with every slot busy it fails with the pool-exhausted
error and leaves the state unchanged; when the first idle index `i`
(all indices before it busy) holds an opened connection it returns
that handle after marking slot `i` busy; when slot `i` was never
opened it attempts to open a connection there instead, failing with
the driver's error or storing the fresh handle at `i`. -/
theorem c1_acquire_scan (drv : Driver) (s : GState) (name : String)
    (pool : PoolType) (h : lookupL s.pools name = some pool) :
    ((∀ b ∈ pool.busy, b = true) →
      GetFromPool drv s name = (Except.error (DBErr.noIdle name), s)) ∧
    (∀ i c, pool.busy.get? i = some false →
      (∀ j, j < i → pool.busy.get? j = some true) →
      (pool.conns.get? i).join = some c →
      GetFromPool drv s name = (Except.ok c,
        { s with pools := (name, { pool with busy := pool.busy.set i true })
            :: s.pools })) ∧
    (∀ i, pool.busy.get? i = some false →
      (∀ j, j < i → pool.busy.get? j = some true) →
      (pool.conns.get? i).join = none →
      ((∀ msg, drv pool.driver pool.dsn = some msg →
        GetFromPool drv s name = (Except.error (DBErr.openFailed msg), s)) ∧
       (drv pool.driver pool.dsn = none →
        GetFromPool drv s name = (Except.ok s.nextConn,
          { pools := (name, { pool with
                conns := pool.conns.set i (some s.nextConn),
                busy := pool.busy.set i true }) :: s.pools,
            poolPtr := (s.nextConn, { index := i, nameConn := name })
              :: s.poolPtr,
            nextConn := s.nextConn + 1 })))) := by
  refine ⟨?_, ?_, ?_⟩
  · intro hall
    exact getFromPool_exhausted h (firstFree_none_iff.mpr hall)
  · intro i c hfree hprior hc
    exact getFromPool_reuse h (firstFree_of_spec hprior hfree) hc
  · intro i hfree hprior hc
    have hff := firstFree_of_spec hprior hfree
    exact ⟨fun msg hd => getFromPool_openFail h hff hc hd,
      fun hd => getFromPool_openOk h hff hc hd⟩

/-- C1 witness: in the sample state `sW1`, slot 0 is busy and slot 1
idle with handle 7 opened, so an acquire on `p` returns 7 and marks
slot 1 busy. -/
theorem c1_acquire_scan_witness :
    GetFromPool drvOkW sW1 "p" = (Except.ok 7,
      { sW1 with pools := ("p", { poolW1 with busy := poolW1.busy.set 1 true })
          :: sW1.pools }) :=
  (c1_acquire_scan drvOkW sW1 "p" poolW1 (by decide)).2.1 1 7 (by decide)
    (by decide) (by decide)

/-- C2: `ReturnToPool` on a handle of the reverse index (in a
well-formed state) marks that handle's slot idle, returns `true` and
changes nothing else; returning a handle whose slot is already idle
still yields `true` and an observably unchanged state; returning a
handle absent from the reverse index yields `false` and exactly the
same state. -/
theorem c2_release (s : GState) (hwf : WFp s) :
    (∀ db, lookupL s.poolPtr db = none → ReturnToPool s db = (false, s)) ∧
    (∀ db ptr, lookupL s.poolPtr db = some ptr →
      (ReturnToPool s db).1 = true ∧
      ∃ pool, lookupL s.pools ptr.nameConn = some pool ∧
        lookupL (ReturnToPool s db).2.pools ptr.nameConn =
          some { pool with busy := pool.busy.set ptr.index false } ∧
        (∀ n, n ≠ ptr.nameConn →
          lookupL (ReturnToPool s db).2.pools n = lookupL s.pools n) ∧
        (∀ c, lookupL (ReturnToPool s db).2.poolPtr c = lookupL s.poolPtr c) ∧
        (ReturnToPool s db).2.nextConn = s.nextConn) ∧
    (∀ db ptr pool, lookupL s.poolPtr db = some ptr →
      lookupL s.pools ptr.nameConn = some pool →
      pool.busy.get? ptr.index = some false →
      (ReturnToPool s db).1 = true ∧ StateEquiv (ReturnToPool s db).2 s) := by
  refine ⟨?_, ?_, ?_⟩
  · intro db hlk
    exact returnToPool_unknown hlk
  · intro db ptr hlk
    obtain ⟨pool, hp, hg⟩ := hwf.ptrSlot db ptr hlk
    have hr := returnToPool_found hlk hp
    refine ⟨by simp only [hr], pool, hp, ?_, ?_, ?_, ?_⟩
    · simp only [hr]
      rw [lookupL_cons, if_pos rfl]
    · intro n hn
      simp only [hr]
      rw [lookupL_cons, if_neg (fun he => hn he.symm)]
    · intro c
      simp only [hr]
    · simp only [hr]
  · intro db ptr pool hlk hp hidle
    have hr := returnToPool_found hlk hp
    have hset : pool.busy.set ptr.index false = pool.busy := set_of_get? hidle
    refine ⟨by simp only [hr], ?_⟩
    simp only [hr]
    refine ⟨?_, fun c => rfl, rfl⟩
    intro n
    rw [lookupL_cons]
    by_cases hn : ptr.nameConn = n
    · rw [if_pos hn]
      subst hn
      rw [hp, hset]
    · rw [if_neg hn]

/-- C2 witness: in `sW1`, handle 9 was never issued so releasing it
returns `false` with no change; handle 7's slot is already idle, so
releasing it again returns `true` and changes nothing observable. -/
theorem c2_release_witness :
    ReturnToPool sW1 9 = (false, sW1) ∧
    ((ReturnToPool sW1 7).1 = true ∧ StateEquiv (ReturnToPool sW1 7).2 sW1) := by
  have h := c2_release sW1 (wfCheck_sound (by decide))
  exact ⟨h.1 9 (by decide),
    h.2.2 7 { index := 1, nameConn := "p" } poolW1 (by decide) (by decide)
      (by decide)⟩

/-- C3: when the scan reaches a never-opened idle slot and the driver
fails, `GetFromPool` returns the driver's error verbatim and the whole
state is unchanged, so an immediate retry on the same pool fails the
same way again. -/
theorem c3_open_failure (drv : Driver) (s : GState) (name : String)
    (pool : PoolType) (i : Nat) (msg : String)
    (h : lookupL s.pools name = some pool)
    (hf : firstFree pool.busy = some i)
    (hc : (pool.conns.get? i).join = none)
    (hd : drv pool.driver pool.dsn = some msg) :
    GetFromPool drv s name = (Except.error (DBErr.openFailed msg), s) ∧
    GetFromPool drv (GetFromPool drv s name).2 name =
      (Except.error (DBErr.openFailed msg), s) := by
  have h1 := getFromPool_openFail h hf hc hd
  refine ⟨h1, ?_⟩
  rw [h1]
  exact h1

/-- C3 witness: in `sW3` (pool `q`, two empty idle slots) with an
always-failing driver, both the first and the second acquire fail with
the driver's message and the state stays `sW3`. -/
theorem c3_open_failure_witness :
    GetFromPool drvFailW sW3 "q" = (Except.error (DBErr.openFailed "boom"), sW3) ∧
    GetFromPool drvFailW (GetFromPool drvFailW sW3 "q").2 "q" =
      (Except.error (DBErr.openFailed "boom"), sW3) :=
  c3_open_failure drvFailW sW3 "q" poolW3 0 "boom" (by decide) (by decide)
    (by decide) (by decide)

/-- C4: acquiring from a name that was never registered fails with the
unknown-pool error and leaves the state unchanged, and it does so
again on an immediate retry (deterministically). -/
theorem c4_unknown_pool (drv : Driver) (s : GState) (name : String)
    (h : lookupL s.pools name = none) :
    GetFromPool drv s name = (Except.error (DBErr.unknownPool name), s) ∧
    GetFromPool drv (GetFromPool drv s name).2 name =
      (Except.error (DBErr.unknownPool name), s) := by
  have h1 := @getFromPool_unknown drv s name h
  refine ⟨h1, ?_⟩
  rw [h1]
  exact h1

/-- C4 witness: acquiring `missing` from the empty registry fails with
the unknown-pool error, twice in a row, with no state change. -/
theorem c4_unknown_pool_witness :
    GetFromPool drvOkW sEmptyW "missing" =
      (Except.error (DBErr.unknownPool "missing"), sEmptyW) ∧
    GetFromPool drvOkW (GetFromPool drvOkW sEmptyW "missing").2 "missing" =
      (Except.error (DBErr.unknownPool "missing"), sEmptyW) :=
  c4_unknown_pool drvOkW sEmptyW "missing" (by decide)

/-- C5: on a registered capacity-1 pool that is idle and never opened,
with a succeeding driver, acquire opens a handle, release returns
`true`, and a second acquire returns the same handle without opening a
new connection (the allocation counter does not move again). -/
theorem c5_reuse_after_release (drv : Driver) (s : GState) (name : String)
    (pool : PoolType) (h : lookupL s.pools name = some pool)
    (hb : pool.busy = [false]) (hc : pool.conns = [none])
    (hd : drv pool.driver pool.dsn = none) :
    ∃ c s1 s2 s3,
      GetFromPool drv s name = (Except.ok c, s1) ∧
      ReturnToPool s1 c = (true, s2) ∧
      GetFromPool drv s2 name = (Except.ok c, s3) ∧
      s3.nextConn = s1.nextConn := by
  obtain ⟨conns0, busy0, drv0, dsn0, ping0⟩ := pool
  have hb' : busy0 = [false] := hb
  have hc' : conns0 = [none] := hc
  subst hb'
  subst hc'
  have h1 : GetFromPool drv s name = (Except.ok s.nextConn, { pools := (name, { conns := [some s.nextConn], busy := [true], driver := drv0, dsn := dsn0, ping := ping0 }) :: s.pools, poolPtr := (s.nextConn, { index := 0, nameConn := name }) :: s.poolPtr, nextConn := s.nextConn + 1 }) :=
    getFromPool_openOk (i := 0) h rfl rfl hd
  have h2 : ReturnToPool { pools := (name, { conns := [some s.nextConn], busy := [true], driver := drv0, dsn := dsn0, ping := ping0 }) :: s.pools, poolPtr := (s.nextConn, { index := 0, nameConn := name }) :: s.poolPtr, nextConn := s.nextConn + 1 } s.nextConn = (true, { pools := (name, { conns := [some s.nextConn], busy := [false], driver := drv0, dsn := dsn0, ping := ping0 }) :: (name, { conns := [some s.nextConn], busy := [true], driver := drv0, dsn := dsn0, ping := ping0 }) :: s.pools, poolPtr := (s.nextConn, { index := 0, nameConn := name }) :: s.poolPtr, nextConn := s.nextConn + 1 }) :=
    @returnToPool_found { pools := (name, { conns := [some s.nextConn], busy := [true], driver := drv0, dsn := dsn0, ping := ping0 }) :: s.pools, poolPtr := (s.nextConn, { index := 0, nameConn := name }) :: s.poolPtr, nextConn := s.nextConn + 1 } s.nextConn { index := 0, nameConn := name } { conns := [some s.nextConn], busy := [true], driver := drv0, dsn := dsn0, ping := ping0 }
      (by rw [show ({ pools := (name, { conns := [some s.nextConn], busy := [true], driver := drv0, dsn := dsn0, ping := ping0 }) :: s.pools, poolPtr := (s.nextConn, { index := 0, nameConn := name }) :: s.poolPtr, nextConn := s.nextConn + 1 } : GState).poolPtr = (s.nextConn, { index := 0, nameConn := name }) :: s.poolPtr from rfl, lookupL_cons, if_pos rfl])
      (by rw [show ({ pools := (name, { conns := [some s.nextConn], busy := [true], driver := drv0, dsn := dsn0, ping := ping0 }) :: s.pools, poolPtr := (s.nextConn, { index := 0, nameConn := name }) :: s.poolPtr, nextConn := s.nextConn + 1 } : GState).pools = (name, { conns := [some s.nextConn], busy := [true], driver := drv0, dsn := dsn0, ping := ping0 }) :: s.pools from rfl, lookupL_cons, if_pos rfl])
  have h3 : GetFromPool drv { pools := (name, { conns := [some s.nextConn], busy := [false], driver := drv0, dsn := dsn0, ping := ping0 }) :: (name, { conns := [some s.nextConn], busy := [true], driver := drv0, dsn := dsn0, ping := ping0 }) :: s.pools, poolPtr := (s.nextConn, { index := 0, nameConn := name }) :: s.poolPtr, nextConn := s.nextConn + 1 } name = (Except.ok s.nextConn, { pools := (name, { conns := [some s.nextConn], busy := [true], driver := drv0, dsn := dsn0, ping := ping0 }) :: (name, { conns := [some s.nextConn], busy := [false], driver := drv0, dsn := dsn0, ping := ping0 }) :: (name, { conns := [some s.nextConn], busy := [true], driver := drv0, dsn := dsn0, ping := ping0 }) :: s.pools, poolPtr := (s.nextConn, { index := 0, nameConn := name }) :: s.poolPtr, nextConn := s.nextConn + 1 }) :=
    @getFromPool_reuse drv { pools := (name, { conns := [some s.nextConn], busy := [false], driver := drv0, dsn := dsn0, ping := ping0 }) :: (name, { conns := [some s.nextConn], busy := [true], driver := drv0, dsn := dsn0, ping := ping0 }) :: s.pools, poolPtr := (s.nextConn, { index := 0, nameConn := name }) :: s.poolPtr, nextConn := s.nextConn + 1 } name { conns := [some s.nextConn], busy := [false], driver := drv0, dsn := dsn0, ping := ping0 } 0 s.nextConn
      (by rw [show ({ pools := (name, { conns := [some s.nextConn], busy := [false], driver := drv0, dsn := dsn0, ping := ping0 }) :: (name, { conns := [some s.nextConn], busy := [true], driver := drv0, dsn := dsn0, ping := ping0 }) :: s.pools, poolPtr := (s.nextConn, { index := 0, nameConn := name }) :: s.poolPtr, nextConn := s.nextConn + 1 } : GState).pools = (name, { conns := [some s.nextConn], busy := [false], driver := drv0, dsn := dsn0, ping := ping0 }) :: (name, { conns := [some s.nextConn], busy := [true], driver := drv0, dsn := dsn0, ping := ping0 }) :: s.pools from rfl, lookupL_cons, if_pos rfl])
      rfl rfl
  exact ⟨s.nextConn, { pools := (name, { conns := [some s.nextConn], busy := [true], driver := drv0, dsn := dsn0, ping := ping0 }) :: s.pools, poolPtr := (s.nextConn, { index := 0, nameConn := name }) :: s.poolPtr, nextConn := s.nextConn + 1 }, { pools := (name, { conns := [some s.nextConn], busy := [false], driver := drv0, dsn := dsn0, ping := ping0 }) :: (name, { conns := [some s.nextConn], busy := [true], driver := drv0, dsn := dsn0, ping := ping0 }) :: s.pools, poolPtr := (s.nextConn, { index := 0, nameConn := name }) :: s.poolPtr, nextConn := s.nextConn + 1 }, { pools := (name, { conns := [some s.nextConn], busy := [true], driver := drv0, dsn := dsn0, ping := ping0 }) :: (name, { conns := [some s.nextConn], busy := [false], driver := drv0, dsn := dsn0, ping := ping0 }) :: (name, { conns := [some s.nextConn], busy := [true], driver := drv0, dsn := dsn0, ping := ping0 }) :: s.pools, poolPtr := (s.nextConn, { index := 0, nameConn := name }) :: s.poolPtr, nextConn := s.nextConn + 1 }, h1, h2, h3, rfl⟩

/-- C5 witness: running acquire, release, acquire on the concrete
capacity-1 state `sW5` with the always-succeeding driver. -/
theorem c5_reuse_after_release_witness :
    ∃ c s1 s2 s3,
      GetFromPool drvOkW sW5 "r" = (Except.ok c, s1) ∧
      ReturnToPool s1 c = (true, s2) ∧
      GetFromPool drvOkW s2 "r" = (Except.ok c, s3) ∧
      s3.nextConn = s1.nextConn :=
  c5_reuse_after_release drvOkW sW5 "r" poolW5 (by decide) (by decide)
    (by decide) (by decide)

end Spcdb

namespace Spcdb

theorem connectionName_found {s : GState} {db : Conn} {ptr : PtrType}
    (h : lookupL s.poolPtr db = some ptr) :
    ConnectionName s db = ptr.nameConn := by
  simp only [ConnectionName, h]

theorem connectionName_missing {s : GState} {db : Conn}
    (h : lookupL s.poolPtr db = none) : ConnectionName s db = "" := by
  simp only [ConnectionName, h]

/-- C6: for a registered pool, one sweep pings it exactly when its
ping flag is set, and then the pinged connections are exactly those of
the slots whose snapshotted busy flag is `false` and whose slot holds
an opened connection; a slot whose snapshot marked it busy is never
pinged.  Pinging is an observation only: the model's sweep returns the
pinged handles and no new state and no error, matching the source,
which discards the ping result. -/
theorem c6_sweeper (maxConns : Nat) (s : GState) (name : String)
    (pool : PoolType) (h : lookupL s.pools name = some pool)
    (hlb : pool.busy.length = maxConns) :
    (pool.ping = true → sweepPool maxConns s name = pingPool maxConns pool) ∧
    (pool.ping = false → sweepPool maxConns s name = []) ∧
    (∀ c, c ∈ pingPool maxConns pool ↔
      ∃ i, pool.busy.get? i = some false ∧
        (pool.conns.get? i).join = some c) := by
  have hpp : pingPool maxConns pool = pingScan pool.conns pool.busy 0 := by
    show pingScan pool.conns (copyTo (List.replicate maxConns false) pool.busy) 0 =
      pingScan pool.conns pool.busy 0
    rw [copyTo_replicate hlb]
  refine ⟨?_, ?_, ?_⟩
  · intro hp
    simp only [sweepPool, h]
    rw [if_pos hp]
  · intro hp
    simp only [sweepPool, h]
    rw [if_neg (fun he => Bool.false_ne_true (hp ▸ he))]
  · intro c
    rw [hpp, mem_pingScan]
    simp only [Nat.zero_add]

/-- C6 witness: in `sW6` (ping enabled, slot 0 busy with handle 3,
slot 1 idle with handle 7), the sweep pings the pool, and handle 7 is
pinged exactly because its slot is idle and opened. -/
theorem c6_sweeper_witness :
    sweepPool 2 sW6 "p" = pingPool 2 poolW6 ∧
    (7 ∈ pingPool 2 poolW6 ↔
      ∃ i, poolW6.busy.get? i = some false ∧
        (poolW6.conns.get? i).join = some 7) := by
  have h := c6_sweeper 2 sW6 "p" poolW6 (by decide) (by decide)
  exact ⟨h.1 (by decide), h.2.2 7⟩

/-- C7: registration creates equal-length slot and busy arrays of the
requested capacity, with every slot empty; acquire and release
preserve both arrays' lengths for every registered pool; an opened
slot keeps its connection across acquire and release (a slot is
written at most once and never emptied); and, in a well-formed state,
a reverse-index entry is never removed or changed by acquire or
release. -/
theorem c7_slot_lifecycle :
    (∀ maxConns (s : GState) (name : String) (cfg : DBConfig),
      ∃ p, lookupL (NewPoolConnection maxConns s name cfg).pools name = some p ∧
        p.conns.length = maxConns ∧ p.busy.length = maxConns ∧
        p.conns = List.replicate maxConns none) ∧
    (∀ (drv : Driver) (s : GState) (name : String),
      PoolLenPres s (GetFromPool drv s name).2 ∧
      ConnsPres s (GetFromPool drv s name).2) ∧
    (∀ (s : GState) (db : Conn),
      PoolLenPres s (ReturnToPool s db).2 ∧
      ConnsPres s (ReturnToPool s db).2) ∧
    (∀ (drv : Driver) (s : GState) (name : String),
      WFp s → PtrPres s (GetFromPool drv s name).2) ∧
    (∀ (s : GState) (db : Conn), PtrPres s (ReturnToPool s db).2) := by
  refine ⟨?_, ?_, ?_, ?_, ?_⟩
  · intro maxConns s name cfg
    refine ⟨{ conns := List.replicate maxConns none, busy := List.replicate maxConns false, driver := if cfg.driverName = "" then DefaultDriverName else cfg.driverName, dsn := cfg.dsn, ping := cfg.isPing }, ?_, ?_, ?_, rfl⟩
    · show lookupL ((name, ({ conns := List.replicate maxConns none, busy := List.replicate maxConns false, driver := if cfg.driverName = "" then DefaultDriverName else cfg.driverName, dsn := cfg.dsn, ping := cfg.isPing } : PoolType)) :: s.pools) name = _
      rw [lookupL_cons, if_pos rfl]
    · exact List.length_replicate maxConns none
    · exact List.length_replicate maxConns false
  · intro drv s name
    exact ⟨getFromPool_lenPres drv s name, getFromPool_connsPres drv s name⟩
  · intro s db
    exact ⟨returnToPool_lenPres s db, returnToPool_connsPres s db⟩
  · intro drv s name hwf
    exact getFromPool_ptrPres hwf
  · intro s db
    exact returnToPool_ptrPres s db

/-- C7 witness: registering a capacity-2 pool in the empty state
yields equal-length empty arrays, and acquire on the well-formed
sample state `sW1` preserves every reverse-index entry. -/
theorem c7_slot_lifecycle_witness :
    (∃ p, lookupL (NewPoolConnection 2 sEmptyW "p"
        { driverName := "", isPing := false, dsn := "d" }).pools "p" = some p ∧
      p.conns.length = 2 ∧ p.busy.length = 2 ∧
      p.conns = List.replicate 2 none) ∧
    PtrPres sW1 (GetFromPool drvOkW sW1 "p").2 := by
  have h := c7_slot_lifecycle
  exact ⟨h.1 2 sEmptyW "p" { driverName := "", isPing := false, dsn := "d" },
    h.2.2.2.1 drvOkW sW1 "p" (wfCheck_sound (by decide))⟩

/-- C8: along any interleaving of acquire and release steps (each
atomic, as the per-pool mutex serializes them) from a well-formed
state, a pool registered with capacity K keeps busy-array length K and
never has more than K busy slots, and the reverse index never maps two
distinct handles to the same slot of the same pool. -/
theorem c8_concurrent_safety (s t : GState) (hwf : WFp s)
    (hreach : Relation.ReflTransGen Step s t) :
    (∀ name pool pool', lookupL s.pools name = some pool →
      lookupL t.pools name = some pool' →
      pool'.busy.length = pool.busy.length ∧
      pool'.busy.count true ≤ pool.busy.length) ∧
    (∀ c1 c2 i n, lookupL t.poolPtr c1 = some { index := i, nameConn := n } →
      lookupL t.poolPtr c2 = some { index := i, nameConn := n } →
      c1 = c2) := by
  obtain ⟨hwft, hlen⟩ := reach_wf_lenPres hreach hwf
  refine ⟨?_, ?_⟩
  · intro name pool pool' hp hp'
    obtain ⟨p2, hp2, hb2, _⟩ := hlen name pool hp
    rw [hp'] at hp2
    injection hp2 with he
    subst he
    exact ⟨hb2, hb2 ▸ List.count_le_length true pool'.busy⟩
  · intro c1 c2 i n h1 h2
    obtain ⟨p1, hq1, hg1⟩ := hwft.ptrSlot c1 _ h1
    obtain ⟨p2, hq2, hg2⟩ := hwft.ptrSlot c2 _ h2
    rw [hq1] at hq2
    injection hq2 with he
    subst he
    rw [hg1] at hg2
    exact Option.some_injective _ (Option.some_injective _ hg2)

/-- C8 witness: the sample state `sW1` is well-formed and reachable
from itself; its pool `p` keeps busy length 2 and at most 2 busy
slots. -/
theorem c8_concurrent_safety_witness :
    poolW1.busy.length = poolW1.busy.length ∧
    poolW1.busy.count true ≤ poolW1.busy.length :=
  (c8_concurrent_safety sW1 sW1 (wfCheck_sound (by decide))
      Relation.ReflTransGen.refl).1 "p" poolW1 poolW1 (by decide) (by decide)

/-- C9: the module tunables default to pool capacity 20, a two-minute
sweep interval, and the `postgres` driver; and registering with an
empty driver name stores a pool whose driver is the process default,
with the default capacity of empty slots. -/
theorem c9_defaults :
    MaxConnsInPool = 20 ∧ TimeoutPing = 2 ∧ DefaultDriverName = "postgres" ∧
    ∀ (s : GState) (name : String) (ping : Bool) (dsn : String),
      lookupL (NewPoolConnection MaxConnsInPool s name
          { driverName := "", isPing := ping, dsn := dsn }).pools name =
        some { conns := List.replicate MaxConnsInPool none,
               busy := List.replicate MaxConnsInPool false,
               driver := DefaultDriverName, dsn := dsn, ping := ping } := by
  refine ⟨rfl, rfl, rfl, ?_⟩
  intro s name ping dsn
  show lookupL ((name, ({ conns := List.replicate MaxConnsInPool none, busy := List.replicate MaxConnsInPool false, driver := if ("" : String) = "" then DefaultDriverName else "", dsn := dsn, ping := ping } : PoolType)) :: s.pools) name = _
  rw [lookupL_cons, if_pos rfl]
  rfl

/-- C10: a handle opened by an acquire on pool `name` reports `name`
as its `ConnectionName` in the resulting state, and a handle absent
from the reverse index reports the empty string. -/
theorem c10_connection_name (s : GState) :
    (∀ (drv : Driver) (name : String) (pool : PoolType) (i : Nat) (c : Conn)
      (s' : GState),
      lookupL s.pools name = some pool →
      firstFree pool.busy = some i →
      (pool.conns.get? i).join = none →
      GetFromPool drv s name = (Except.ok c, s') →
      ConnectionName s' c = name) ∧
    (∀ db, lookupL s.poolPtr db = none → ConnectionName s db = "") := by
  refine ⟨?_, ?_⟩
  · intro drv name pool i c s' h hf hcn hres
    cases hd : drv pool.driver pool.dsn with
    | some msg =>
      rw [getFromPool_openFail h hf hcn hd] at hres
      simp at hres
    | none =>
      rw [getFromPool_openOk h hf hcn hd] at hres
      rw [Prod.mk.injEq] at hres
      obtain ⟨he, hs⟩ := hres
      injection he with he2
      rw [← hs, ← he2]
      exact @connectionName_found { pools := (name, { conns := pool.conns.set i (some s.nextConn), busy := pool.busy.set i true, driver := pool.driver, dsn := pool.dsn, ping := pool.ping }) :: s.pools, poolPtr := (s.nextConn, { index := i, nameConn := name }) :: s.poolPtr, nextConn := s.nextConn + 1 } s.nextConn { index := i, nameConn := name }
        (by rw [show ({ pools := (name, { conns := pool.conns.set i (some s.nextConn), busy := pool.busy.set i true, driver := pool.driver, dsn := pool.dsn, ping := pool.ping }) :: s.pools, poolPtr := (s.nextConn, { index := i, nameConn := name }) :: s.poolPtr, nextConn := s.nextConn + 1 } : GState).poolPtr = (s.nextConn, ({ index := i, nameConn := name } : PtrType)) :: s.poolPtr from rfl, lookupL_cons, if_pos rfl])
  · intro db h
    exact connectionName_missing h

/-- C10 witness: acquiring on the fresh capacity-1 pool `r` of `sW5`
opens handle 0, whose connection name is then `r`; handle 5 was never
issued and reports the empty string. -/
theorem c10_connection_name_witness :
    ConnectionName (GetFromPool drvOkW sW5 "r").2 0 = "r" ∧
    ConnectionName sW5 5 = "" := by
  have h := c10_connection_name sW5
  refine ⟨h.1 drvOkW "r" poolW5 0 0 (GetFromPool drvOkW sW5 "r").2 (by decide)
      (by decide) (by decide) ?_, h.2 5 (by decide)⟩
  rfl

end Spcdb
